import Mathlib

/-!
Verification of the MDP inventory-control solver (`src/mdp_solver.py`).

Shallow embedding conventions:
* states and actions are natural numbers, demand is an integer,
  money amounts and probabilities are real numbers;
* the mutable `value_function` / `policy` arrays are embedded as total
  functions `ℕ → ℝ` / `ℕ → ℕ` updated with `Function.update`
  (the program only ever reads indices `0 .. max_inventory`);
* Python's `for`-loops become structural recursion over `List.range`;
* `value_iteration` returns an `Option`: with `max_iterations = 0` the
  Python loop body never runs and the trailing `return` raises `NameError`
  (the local `delta` is unbound), which is modelled as `none`.
-/

namespace MDPInv

/-- Configuration record captured in `MDPInventorySolver.__init__`
(the transport tables are not read by any core routine). -/
structure Config where
  maxInventory : ℕ
  orderCost : ℝ
  holdingCost : ℝ
  stockoutCost : ℝ
  sellingPrice : ℝ
  demandMean : ℝ
  demandStd : ℝ
  gamma : ℝ

/-- Default configuration used by `main` and by the `config.get` defaults. -/
noncomputable def defaultConfig : Config :=
  { maxInventory := 100, orderCost := 50, holdingCost := 2, stockoutCost := 20,
    sellingPrice := 15, demandMean := 10, demandStd := 3, gamma := 0.95 }

/-- Python `int(x)`: truncation toward zero. -/
noncomputable def truncInt (x : ℝ) : ℤ := if 0 ≤ x then ⌊x⌋ else ⌈x⌉

/-- Demand truncation bound `int(self.demand_mean + 4 * self.demand_std)`. -/
noncomputable def maxDemand (c : Config) : ℤ := truncInt (c.demandMean + 4 * c.demandStd)

/-- Size of the scanned demand range `range(max_demand + 1)`
(empty when `max_demand + 1 ≤ 0`, as in Python). -/
noncomputable def demandSupport (c : Config) : ℕ := (maxDemand c + 1).toNat

/-- State clamp `max(0, min(self.max_inventory, x))`, returning a valid state index. -/
def clamp (c : Config) (x : ℤ) : ℕ := (max 0 (min (c.maxInventory : ℤ) x)).toNat

/-- Density of the normal distribution as computed by scipy's `norm.pdf(x, μ, σ)`. -/
noncomputable def normPdf (μ σ x : ℝ) : ℝ :=
  Real.exp (-((x - μ) ^ 2) / (2 * σ ^ 2)) / (σ * Real.sqrt (2 * Real.pi))

/-- Embeds `MDPInventorySolver.demand_probability`. -/
noncomputable def demand_probability (c : Config) (d : ℤ) : ℝ :=
  if d < 0 then 0 else normPdf c.demandMean c.demandStd d

/-- Embeds `MDPInventorySolver.immediate_reward`. -/
noncomputable def immediate_reward (c : Config) (state action demand : ℤ) : ℝ :=
  ((min state demand : ℤ) : ℝ) * c.sellingPrice
    - (state : ℝ) * c.holdingCost
    - (if 0 < action then c.orderCost + (action : ℝ) * 5 else 0)
    - ((max 0 (demand - state) : ℤ) : ℝ) * c.stockoutCost

/-- Embeds `MDPInventorySolver.transition_probability`. -/
noncomputable def transition_probability (c : Config) (state action next_state : ℕ) : ℝ :=
  ∑ d ∈ Finset.range (demandSupport c),
    if clamp c ((state : ℤ) + action - d) = next_state then demand_probability c d else 0

/-- Inner demand loop of `bellman_update`: the expected value recorded in
`self.q_values[state, action]`. -/
noncomputable def qValue (c : Config) (V : ℕ → ℝ) (state action : ℕ) : ℝ :=
  ∑ d ∈ Finset.range (demandSupport c),
    demand_probability c d *
      (immediate_reward c state action d + c.gamma * V (clamp c ((state : ℤ) + action - d)))

/-- Action scan of `bellman_update`: actions `0 .. n` are visited in increasing
order and the incumbent is replaced only on a strict `>` comparison.  The Python
loop starts from `-inf`, so the first scanned action always becomes the
incumbent; all call sites scan a nonempty action range. -/
noncomputable def scanMax (f : ℕ → ℝ) : ℕ → ℝ × ℕ
  | 0 => (f 0, 0)
  | n + 1 => if f (n + 1) > (scanMax f n).1 then (f (n + 1), n + 1) else scanMax f n

/-- Embeds `MDPInventorySolver.bellman_update` (for the states `0 .. max_inventory`
actually passed to it). -/
noncomputable def bellman_update (c : Config) (V : ℕ → ℝ) (state : ℕ) : ℝ × ℕ :=
  scanMax (qValue c V state) (min (c.maxInventory - state) c.maxInventory)

/-- State loop of one value-iteration sweep: in-place updates in increasing
state order, folding the sweep's `delta`. -/
noncomputable def sweepGo (c : Config) :
    (ℕ → ℝ) → (ℕ → ℕ) → ℝ → List ℕ → (ℕ → ℝ) × (ℕ → ℕ) × ℝ
  | V, P, delta, [] => (V, P, delta)
  | V, P, delta, s :: rest =>
    sweepGo c (Function.update V s (bellman_update c V s).1)
      (Function.update P s (bellman_update c V s).2)
      (max delta |V s - (bellman_update c V s).1|) rest

/-- One full sweep of `value_iteration` over `self.states`, returning the updated
value table, updated policy table and the sweep's `delta`. -/
noncomputable def sweep (c : Config) (V : ℕ → ℝ) (P : ℕ → ℕ) : (ℕ → ℝ) × (ℕ → ℕ) × ℝ :=
  sweepGo c V P 0 (List.range (c.maxInventory + 1))

/-- Value of `float(np.max(self.value_function))` after a sweep. -/
noncomputable def histMax (c : Config) (V : ℕ → ℝ) : ℝ :=
  (List.range (c.maxInventory + 1)).foldl (fun m s => max m (V s)) (V 0)

/-- Value of `float(np.min(self.value_function))` after a sweep. -/
noncomputable def histMin (c : Config) (V : ℕ → ℝ) : ℝ :=
  (List.range (c.maxInventory + 1)).foldl (fun m s => min m (V s)) (V 0)

/-- Convergence record returned by `value_iteration`. -/
structure VIRecord where
  converged : Bool
  iterations : ℕ
  finalDelta : ℝ
  history : List (ℕ × ℝ × ℝ × ℝ)

/-- Iteration loop of `value_iteration`: `fuel` counts the iterations that may
still run after the current one, `iter` is the 1-based iteration counter. -/
noncomputable def viGo (c : Config) (eps : ℝ) :
    ℕ → (ℕ → ℝ) → (ℕ → ℕ) → ℕ → List (ℕ × ℝ × ℝ × ℝ) →
      VIRecord × (ℕ → ℝ) × (ℕ → ℕ)
  | 0, V, P, iter, hist =>
    (⟨if (sweep c V P).2.2 < eps then true else false, iter, (sweep c V P).2.2,
        hist ++ [(iter, (sweep c V P).2.2, histMax c (sweep c V P).1, histMin c (sweep c V P).1)]⟩,
      (sweep c V P).1, (sweep c V P).2.1)
  | fuel + 1, V, P, iter, hist =>
    if (sweep c V P).2.2 < eps then
      (⟨true, iter, (sweep c V P).2.2,
          hist ++ [(iter, (sweep c V P).2.2, histMax c (sweep c V P).1, histMin c (sweep c V P).1)]⟩,
        (sweep c V P).1, (sweep c V P).2.1)
    else
      viGo c eps fuel (sweep c V P).1 (sweep c V P).2.1 (iter + 1)
        (hist ++ [(iter, (sweep c V P).2.2, histMax c (sweep c V P).1, histMin c (sweep c V P).1)])

/-- Embeds `MDPInventorySolver.value_iteration`, threading the solver's
`value_function` and `policy` tables explicitly.  `none` models the `NameError`
raised when `max_iterations = 0` leaves `delta` unbound at the `return`. -/
noncomputable def value_iteration (c : Config) (eps : ℝ) :
    ℕ → (ℕ → ℝ) → (ℕ → ℕ) → Option (VIRecord × (ℕ → ℝ) × (ℕ → ℕ))
  | 0, _, _ => none
  | fuel + 1, V, P => some (viGo c eps fuel V P 1 [])

/-- Python `max` over the collected reorder points (all naturals, so a fold
from `0` agrees with `max` on every nonempty list). -/
def listMax (l : List ℕ) : ℕ := l.foldl max 0

/-- Embeds `MDPInventorySolver.compute_s_S_policy`, including the dead
`self.max_inventory // 2` branch guarding an empty `order_up_to`. -/
noncomputable def compute_s_S_policy (c : Config) (P : ℕ → ℕ) : ℕ × ℕ :=
  let reorderPoints := (List.range (c.maxInventory + 1)).filter fun s => decide (0 < P s)
  let orderUpTo := reorderPoints.map fun s => s + P s
  if reorderPoints = [] then (c.maxInventory / 3, 2 * c.maxInventory / 3)
  else (listMax reorderPoints,
    if orderUpTo = [] then c.maxInventory / 2
    else (truncInt ((orderUpTo.map (Nat.cast : ℕ → ℝ)).sum / orderUpTo.length)).toNat)

/-- Initial value table `np.zeros(len(self.states))`. -/
def initValue : ℕ → ℝ := fun _ => 0

/-- Initial policy table `np.zeros(len(self.states), dtype=int)`. -/
def initPolicy : ℕ → ℕ := fun _ => 0

/-- Summarizer written from the specification text of §4.5: collect the states
with a positive order, take their maximum and the floor of the mean
order-up-to level, with the degenerate thirds-of-capacity fallback. -/
noncomputable def summarizeSpec (c : Config) (P : ℕ → ℕ) : ℕ × ℕ :=
  let pts := (Finset.range (c.maxInventory + 1)).filter fun s => 0 < P s
  if h : pts.Nonempty then
    (pts.max' h, (∑ s ∈ pts, (s + P s)) / pts.card)
  else (c.maxInventory / 3, 2 * c.maxInventory / 3)

/-! ### Basic lemmas -/

lemma clamp_le (c : Config) (x : ℤ) : clamp c x ≤ c.maxInventory := by
  unfold clamp
  omega

/-- Shared summation-exchange lemma: weighting any state function by the
materialized transition probabilities equals the inline demand-indexed sum. -/
lemma sum_transition_mul (c : Config) (W : ℕ → ℝ) (s a : ℕ) :
    ∑ ns ∈ Finset.range (c.maxInventory + 1), transition_probability c s a ns * W ns
      = ∑ d ∈ Finset.range (demandSupport c),
          demand_probability c d * W (clamp c ((s : ℤ) + a - d)) := by
  unfold transition_probability
  have h1 : ∀ ns ∈ Finset.range (c.maxInventory + 1),
      (∑ d ∈ Finset.range (demandSupport c),
          if clamp c ((s : ℤ) + a - d) = ns then demand_probability c d else 0) * W ns
        = ∑ d ∈ Finset.range (demandSupport c),
            (if clamp c ((s : ℤ) + a - d) = ns then demand_probability c d * W ns else 0) := by
    intro ns _
    rw [Finset.sum_mul]
    exact Finset.sum_congr rfl fun d _ => by rw [ite_mul, zero_mul]
  rw [Finset.sum_congr rfl h1, Finset.sum_comm]
  refine Finset.sum_congr rfl fun d _ => ?_
  rw [Finset.sum_ite_eq]
  simp [Finset.mem_range, Nat.lt_succ_iff, clamp_le]

/-! ### Claims -/

/-- Claim C2: for every state, action and value table, the materialized
transition-model summation `Σ_ns transition_probability(s,a,ns) · V ns` equals
the inline demand-indexed summation performed by `bellman_update`. -/
theorem transition_model_refines_inline (c : Config) (V : ℕ → ℝ) (s a : ℕ) :
    ∑ ns ∈ Finset.range (c.maxInventory + 1), transition_probability c s a ns * V ns
      = ∑ d ∈ Finset.range (demandSupport c),
          demand_probability c d * V (clamp c ((s : ℤ) + a - d)) :=
  sum_transition_mul c V s a

/-- Claim C6: the total transition mass out of any state-action pair equals the
truncated demand mass `Σ_d demand_probability d`, independently of `s` and `a`. -/
theorem transition_mass_eq_truncated_demand_mass (c : Config) (s a : ℕ) :
    ∑ ns ∈ Finset.range (c.maxInventory + 1), transition_probability c s a ns
      = ∑ d ∈ Finset.range (demandSupport c), demand_probability c d := by
  have h := sum_transition_mul c (fun _ => 1) s a
  simpa using h

/-- Claim C4: the immediate reward is revenue on `min(state, demand)` units,
minus holding charged on the pre-sale on-hand inventory, minus an ordering cost
of `order_cost + 5·action` charged exactly when the order is nonzero, minus the
stockout penalty on unmet demand. -/
theorem immediate_reward_formula (c : Config) (s a d : ℤ) (ha : 0 ≤ a) :
    immediate_reward c s a d =
      ((min s d : ℤ) : ℝ) * c.sellingPrice - (s : ℝ) * c.holdingCost
        - (if a = 0 then 0 else c.orderCost + (a : ℝ) * 5)
        - ((max 0 (d - s) : ℤ) : ℝ) * c.stockoutCost := by
  unfold immediate_reward
  rcases ha.lt_or_eq with h | h
  · rw [if_pos h, if_neg (by omega)]
  · rw [if_neg (by omega), if_pos (by omega)]

/-- Witness for claim C4 at the default configuration, state 3, order 2, demand 5. -/
theorem immediate_reward_formula_witness :
    (0 : ℤ) ≤ 2 ∧
      immediate_reward defaultConfig 3 2 5 =
        ((min 3 5 : ℤ) : ℝ) * defaultConfig.sellingPrice
          - ((3 : ℤ) : ℝ) * defaultConfig.holdingCost
          - (if (2 : ℤ) = 0 then 0 else defaultConfig.orderCost + ((2 : ℤ) : ℝ) * 5)
          - ((max 0 (5 - 3) : ℤ) : ℝ) * defaultConfig.stockoutCost :=
  ⟨by decide, immediate_reward_formula defaultConfig 3 2 5 (by decide)⟩

lemma scanMax_snd_le (f : ℕ → ℝ) (n : ℕ) : (scanMax f n).2 ≤ n := by
  induction n with
  | zero => simp [scanMax]
  | succ n ih =>
    rw [scanMax]
    split
    · exact le_refl _
    · exact ih.trans (Nat.le_succ n)

lemma scanMax_fst_eq (f : ℕ → ℝ) (n : ℕ) : (scanMax f n).1 = f (scanMax f n).2 := by
  induction n with
  | zero => simp [scanMax]
  | succ n ih =>
    rw [scanMax]
    split
    · rfl
    · exact ih

lemma scanMax_le_fst (f : ℕ → ℝ) (n : ℕ) : ∀ a ≤ n, f a ≤ (scanMax f n).1 := by
  induction n with
  | zero =>
    intro a ha
    simp only [Nat.le_zero] at ha
    simp [ha, scanMax]
  | succ n ih =>
    intro a ha
    rw [scanMax]
    split
    · rename_i h
      rcases Nat.lt_succ_iff_lt_or_eq.mp (Nat.lt_succ_of_le ha) with h' | h'
      · exact (ih a (Nat.lt_succ_iff.mp h')).trans (le_of_lt h)
      · exact le_of_eq (by rw [h'])
    · rename_i h
      rcases Nat.lt_succ_iff_lt_or_eq.mp (Nat.lt_succ_of_le ha) with h' | h'
      · exact ih a (Nat.lt_succ_iff.mp h')
      · rw [h']
        exact not_lt.mp h

lemma scanMax_lt_of_lt_snd (f : ℕ → ℝ) (n : ℕ) :
    ∀ b, b < (scanMax f n).2 → f b < (scanMax f n).1 := by
  induction n with
  | zero => simp [scanMax]
  | succ n ih =>
    intro b hb
    rw [scanMax] at hb ⊢
    by_cases h : f (n + 1) > (scanMax f n).1
    · rw [if_pos h] at hb ⊢
      exact lt_of_le_of_lt (scanMax_le_fst f n b (Nat.lt_succ_iff.mp hb)) h
    · rw [if_neg h] at hb ⊢
      exact ih b hb

/-- Claim C1: for every in-range state, `bellman_update` returns the maximum of
the expected values `qValue` over the feasible actions `0 .. max_inventory − s`
together with the smallest action attaining it (strict `>` scan in increasing
action order). -/
theorem bellman_update_argmax (c : Config) (V : ℕ → ℝ) (s : ℕ)
    (hs : s ≤ c.maxInventory) :
    s + (bellman_update c V s).2 ≤ c.maxInventory ∧
    (bellman_update c V s).1 = qValue c V s (bellman_update c V s).2 ∧
    (∀ a, s + a ≤ c.maxInventory → qValue c V s a ≤ (bellman_update c V s).1) ∧
    (∀ b, b < (bellman_update c V s).2 → qValue c V s b < (bellman_update c V s).1) := by
  have hmin : min (c.maxInventory - s) c.maxInventory = c.maxInventory - s :=
    min_eq_left (Nat.sub_le _ _)
  unfold bellman_update
  rw [hmin]
  refine ⟨?_, scanMax_fst_eq _ _, ?_, scanMax_lt_of_lt_snd _ _⟩
  · have := scanMax_snd_le (qValue c V s) (c.maxInventory - s)
    omega
  · intro a ha
    exact scanMax_le_fst _ _ a (by omega)

/-- Witness for claim C1 at the default configuration, the all-zero value table
and state 0. -/
theorem bellman_update_argmax_witness :
    (0 : ℕ) ≤ defaultConfig.maxInventory ∧
      (0 + (bellman_update defaultConfig initValue 0).2 ≤ defaultConfig.maxInventory ∧
        (bellman_update defaultConfig initValue 0).1 =
          qValue defaultConfig initValue 0 (bellman_update defaultConfig initValue 0).2 ∧
        (∀ a, 0 + a ≤ defaultConfig.maxInventory →
          qValue defaultConfig initValue 0 a ≤ (bellman_update defaultConfig initValue 0).1) ∧
        (∀ b, b < (bellman_update defaultConfig initValue 0).2 →
          qValue defaultConfig initValue 0 b < (bellman_update defaultConfig initValue 0).1)) :=
  ⟨by decide, bellman_update_argmax defaultConfig initValue 0 (by decide)⟩

/-- Claim C5, amended: for positive `demand_std` the demand probability is
nonnegative, is `0` on negative demand, agrees with the mathematical normal
density with mean `demand_mean` and variance `demand_std²` on nonnegative
demand, and lies in `[0, 1]` whenever `demand_std · √(2π) ≥ 1` (as for the
default `demand_std = 3`); the unconditional `[0, 1]` bound of the claim fails
for small `demand_std`. -/
theorem demand_probability_props (c : Config) (d : ℤ) (hσ : 0 < c.demandStd) :
    0 ≤ demand_probability c d ∧
    (d < 0 → demand_probability c d = 0) ∧
    (0 ≤ d → demand_probability c d =
      ProbabilityTheory.gaussianPDFReal c.demandMean (c.demandStd ^ 2).toNNReal d) ∧
    (1 ≤ c.demandStd * Real.sqrt (2 * Real.pi) → demand_probability c d ≤ 1) := by
  have hsqrt : 0 < Real.sqrt (2 * Real.pi) :=
    Real.sqrt_pos.mpr (by positivity)
  have hexp : ∀ x : ℝ, Real.exp (-((x - c.demandMean) ^ 2) / (2 * c.demandStd ^ 2)) ≤ 1 := by
    intro x
    rw [Real.exp_le_one_iff]
    apply div_nonpos_of_nonpos_of_nonneg
    · simp [sq_nonneg]
    · positivity
  refine ⟨?_, ?_, ?_, ?_⟩
  · unfold demand_probability normPdf
    split
    · exact le_refl 0
    · positivity
  · intro hd
    unfold demand_probability
    rw [if_pos hd]
  · intro hd
    unfold demand_probability normPdf
    rw [if_neg (by omega)]
    rw [ProbabilityTheory.gaussianPDFReal]
    rw [Real.coe_toNNReal _ (sq_nonneg c.demandStd)]
    rw [mul_comm (2 * Real.pi) (c.demandStd ^ 2), Real.sqrt_mul (sq_nonneg _),
      Real.sqrt_sq hσ.le, inv_mul_eq_div]
  · intro hb
    unfold demand_probability normPdf
    split
    · norm_num
    · rw [div_le_one (by positivity)]
      exact (hexp _).trans hb

/-- Witness for claim C5 at the default configuration and demand 7: the default
`demand_std = 3` satisfies both hypotheses. -/
theorem demand_probability_props_witness :
    0 < defaultConfig.demandStd ∧
      (0 ≤ demand_probability defaultConfig 7 ∧
        ((7 : ℤ) < 0 → demand_probability defaultConfig 7 = 0) ∧
        ((0 : ℤ) ≤ 7 → demand_probability defaultConfig 7 =
          ProbabilityTheory.gaussianPDFReal defaultConfig.demandMean
            (defaultConfig.demandStd ^ 2).toNNReal ((7 : ℤ) : ℝ)) ∧
        (1 ≤ defaultConfig.demandStd * Real.sqrt (2 * Real.pi) →
          demand_probability defaultConfig 7 ≤ 1)) :=
  ⟨by norm_num [defaultConfig], demand_probability_props defaultConfig 7 (by norm_num [defaultConfig])⟩

/-- Configuration with the near-deterministic demand of the specification's
known-value scenario (`demand_std = 0.01`). -/
noncomputable def cfgNarrow : Config :=
  { maxInventory := 10, orderCost := 0, holdingCost := 0, stockoutCost := 100,
    sellingPrice := 1, demandMean := 5, demandStd := 1 / 100, gamma := 0.95 }

/-- Counterexample to claim C5 as stated: with `demand_std = 0.01` (the
specification's own known-value scenario), the value returned at the mean
demand exceeds 1, so `demand_probability` is not a function into `[0, 1]`. -/
theorem demand_probability_not_in_unit_interval : 1 < demand_probability cfgNarrow 5 := by
  unfold demand_probability cfgNarrow normPdf
  rw [if_neg (by decide)]
  have hsqrt : 0 < Real.sqrt (2 * Real.pi) := Real.sqrt_pos.mpr (by positivity)
  have hlt : Real.sqrt (2 * Real.pi) < 100 := by
    rw [Real.sqrt_lt' (by norm_num)]
    nlinarith [Real.pi_lt_d2]
  have hE : (-((((5 : ℤ) : ℝ) - 5) ^ 2) / (2 * ((1 : ℝ) / 100) ^ 2)) = 0 := by norm_num
  rw [hE, Real.exp_zero, one_lt_div (by positivity)]
  linarith

lemma foldlMax_init_le (t : List ℕ) : ∀ a, a ≤ t.foldl max a := by
  induction t with
  | nil => exact fun a => le_refl a
  | cons b t ih => exact fun a => (le_max_left a b).trans (ih (max a b))

lemma foldlMax_mem (t : List ℕ) : ∀ a, t.foldl max a ∈ a :: t := by
  induction t with
  | nil => simp
  | cons b t ih =>
    intro a
    have h := ih (max a b)
    rcases max_choice a b with h' | h' <;>
      · rw [h'] at h
        simp only [List.foldl_cons]
        rw [h']
        rcases List.mem_cons.mp h with h'' | h'' <;> simp [h'']

lemma foldlMax_ge (t : List ℕ) : ∀ a x, x ∈ a :: t → x ≤ t.foldl max a := by
  induction t with
  | nil =>
    intro a x hx
    simp only [List.mem_singleton] at hx
    simp [hx]
  | cons b t ih =>
    intro a x hx
    simp only [List.foldl_cons]
    rcases List.mem_cons.mp hx with h | h
    · exact h ▸ (le_max_left a b).trans (foldlMax_init_le t (max a b))
    · rcases List.mem_cons.mp h with h' | h'
      · exact h' ▸ (le_max_right a b).trans (foldlMax_init_le t (max a b))
      · exact ih (max a b) x (List.mem_cons_of_mem _ h')

lemma listMax_mem {l : List ℕ} (h : l ≠ []) : listMax l ∈ l := by
  cases l with
  | nil => exact absurd rfl h
  | cons a t =>
    have : listMax (a :: t) = t.foldl max a := by
      unfold listMax
      simp [Nat.zero_max]
    rw [this]
    exact foldlMax_mem t a

lemma listMax_ge {l : List ℕ} : ∀ x ∈ l, x ≤ listMax l := by
  intro x hx
  cases l with
  | nil => simp at hx
  | cons a t =>
    have : listMax (a :: t) = t.foldl max a := by
      unfold listMax
      simp [Nat.zero_max]
    rw [this]
    exact foldlMax_ge t a x hx

lemma mem_filterRange (P : ℕ → ℕ) (n s : ℕ) :
    s ∈ (List.range n).filter (fun s => decide (0 < P s)) ↔
      s ∈ (Finset.range n).filter (fun s => 0 < P s) := by
  simp [List.mem_filter, Finset.mem_filter, List.mem_range, Finset.mem_range]

lemma filterRange_map_sum {M : Type} [AddCommMonoid M] (q : ℕ → Bool) (f : ℕ → M) (n : ℕ) :
    (((List.range n).filter q).map f).sum
      = ∑ s ∈ Finset.range n, if q s = true then f s else 0 := by
  induction n with
  | zero => simp
  | succ n ih =>
    rw [List.range_succ, List.filter_append, List.map_append, List.sum_append, ih,
      Finset.sum_range_succ]
    by_cases h : q n <;> simp [h]

lemma filterRange_length (q : ℕ → Bool) (n : ℕ) :
    ((List.range n).filter q).length = ∑ s ∈ Finset.range n, (if q s = true then 1 else 0) := by
  induction n with
  | zero => simp
  | succ n ih =>
    rw [List.range_succ, List.filter_append, List.length_append, ih, Finset.sum_range_succ]
    by_cases h : q n <;> simp [h]

/-- Claim C8: the list-scanning summarizer of the source agrees everywhere with
its specification: the maximum ordering state paired with the floored mean
order-up-to level when some state orders, and the thirds-of-capacity fallback
otherwise. -/
theorem compute_s_S_matches_spec (c : Config) (P : ℕ → ℕ) :
    compute_s_S_policy c P = summarizeSpec c P := by
  classical
  unfold compute_s_S_policy summarizeSpec
  simp only []
  by_cases hL : (List.range (c.maxInventory + 1)).filter (fun s => decide (0 < P s)) = []
  · have hpts : ¬ ((Finset.range (c.maxInventory + 1)).filter (fun s => 0 < P s)).Nonempty := by
      rintro ⟨s, hs⟩
      have := (mem_filterRange P (c.maxInventory + 1) s).mpr hs
      rw [hL] at this
      simp at this
    rw [if_pos hL, dif_neg hpts]
  · have hpts : ((Finset.range (c.maxInventory + 1)).filter (fun s => 0 < P s)).Nonempty := by
      rcases List.exists_mem_of_ne_nil _ hL with ⟨s, hs⟩
      exact ⟨s, (mem_filterRange P (c.maxInventory + 1) s).mp hs⟩
    rw [if_neg hL, dif_pos hpts]
    have hmapne : ((List.range (c.maxInventory + 1)).filter
        (fun s => decide (0 < P s))).map (fun s => s + P s) ≠ [] := by
      simpa [List.map_eq_nil_iff] using hL
    rw [if_neg hmapne]
    refine Prod.ext ?_ ?_
    · apply le_antisymm
      · exact Finset.le_max' _ _ ((mem_filterRange P _ _).mp (listMax_mem hL))
      · exact listMax_ge _ ((mem_filterRange P _ _).mpr (Finset.max'_mem _ hpts))
    · have hsum : ((((List.range (c.maxInventory + 1)).filter
          (fun s => decide (0 < P s))).map (fun s => s + P s)).map (Nat.cast : ℕ → ℝ)).sum
            = ((∑ s ∈ (Finset.range (c.maxInventory + 1)).filter (fun s => 0 < P s),
                (s + P s) : ℕ) : ℝ) := by
        rw [List.map_map, filterRange_map_sum, Finset.sum_filter, Nat.cast_sum]
        refine Finset.sum_congr rfl fun s _ => ?_
        by_cases h : 0 < P s <;> simp [h]
      have hlen : (((List.range (c.maxInventory + 1)).filter
          (fun s => decide (0 < P s))).map (fun s => s + P s)).length
            = ((Finset.range (c.maxInventory + 1)).filter (fun s => 0 < P s)).card := by
        rw [List.length_map, filterRange_length, Finset.card_filter]
        refine Finset.sum_congr rfl fun s _ => ?_
        by_cases h : 0 < P s <;> simp [h]
      rw [hsum, hlen]
      have hnn : (0 : ℝ) ≤
          ((∑ s ∈ (Finset.range (c.maxInventory + 1)).filter (fun s => 0 < P s),
            (s + P s) : ℕ) : ℝ) /
          (((Finset.range (c.maxInventory + 1)).filter (fun s => 0 < P s)).card : ℝ) := by
        positivity
      unfold truncInt
      rw [if_pos hnn, Int.floor_toNat, Nat.floor_div_nat, Nat.floor_natCast]

/-- Tables after `k` completed sweeps of value iteration. -/
noncomputable def sweepIter (c : Config) (V : ℕ → ℝ) (P : ℕ → ℕ) : ℕ → (ℕ → ℝ) × (ℕ → ℕ)
  | 0 => (V, P)
  | k + 1 =>
    ((sweep c (sweepIter c V P k).1 (sweepIter c V P k).2).1,
      (sweep c (sweepIter c V P k).1 (sweepIter c V P k).2).2.1)

/-- The `delta` reported by sweep number `k + 1` of value iteration. -/
noncomputable def deltaSeq (c : Config) (V : ℕ → ℝ) (P : ℕ → ℕ) (k : ℕ) : ℝ :=
  (sweep c (sweepIter c V P k).1 (sweepIter c V P k).2).2.2

lemma sweepIter_shift (c : Config) (V : ℕ → ℝ) (P : ℕ → ℕ) (k : ℕ) :
    sweepIter c V P (k + 1) = sweepIter c (sweep c V P).1 (sweep c V P).2.1 k := by
  induction k with
  | zero => rfl
  | succ k ih =>
    have h2 : sweepIter c V P (k + 1 + 1)
        = ((sweep c (sweepIter c V P (k + 1)).1 (sweepIter c V P (k + 1)).2).1,
          (sweep c (sweepIter c V P (k + 1)).1 (sweepIter c V P (k + 1)).2).2.1) := rfl
    have h3 : sweepIter c (sweep c V P).1 (sweep c V P).2.1 (k + 1)
        = ((sweep c (sweepIter c (sweep c V P).1 (sweep c V P).2.1 k).1
              (sweepIter c (sweep c V P).1 (sweep c V P).2.1 k).2).1,
          (sweep c (sweepIter c (sweep c V P).1 (sweep c V P).2.1 k).1
              (sweepIter c (sweep c V P).1 (sweep c V P).2.1 k).2).2.1) := rfl
    rw [h2, h3, ih]

lemma deltaSeq_shift (c : Config) (V : ℕ → ℝ) (P : ℕ → ℕ) (k : ℕ) :
    deltaSeq c V P (k + 1) = deltaSeq c (sweep c V P).1 (sweep c V P).2.1 k := by
  unfold deltaSeq
  rw [sweepIter_shift]

lemma viGo_spec (c : Config) (eps : ℝ) :
    ∀ fuel (V : ℕ → ℝ) (P : ℕ → ℕ) (iter : ℕ) (hist : List (ℕ × ℝ × ℝ × ℝ)),
      ∃ j, 1 ≤ j ∧ j ≤ fuel + 1 ∧
        (viGo c eps fuel V P iter hist).1.iterations = iter + (j - 1) ∧
        (viGo c eps fuel V P iter hist).2.1 = (sweepIter c V P j).1 ∧
        (viGo c eps fuel V P iter hist).2.2 = (sweepIter c V P j).2 ∧
        (viGo c eps fuel V P iter hist).1.finalDelta = deltaSeq c V P (j - 1) ∧
        ((viGo c eps fuel V P iter hist).1.converged = true ↔ deltaSeq c V P (j - 1) < eps) ∧
        (∀ k, k + 1 < j → eps ≤ deltaSeq c V P k) ∧
        ((viGo c eps fuel V P iter hist).1.converged = false → j = fuel + 1) := by
  intro fuel
  induction fuel with
  | zero =>
    intro V P iter hist
    refine ⟨1, le_refl 1, by omega, by simp [viGo], by simp [viGo, sweepIter],
      by simp [viGo, sweepIter], by simp [viGo, deltaSeq, sweepIter], ?_, by omega, fun _ => rfl⟩
    by_cases h : (sweep c V P).2.2 < eps <;>
      simp [viGo, deltaSeq, sweepIter, h]
  | succ fuel ih =>
    intro V P iter hist
    by_cases h : (sweep c V P).2.2 < eps
    · refine ⟨1, le_refl 1, by omega, ?_, ?_, ?_, ?_, ?_, by omega, ?_⟩ <;>
        simp [viGo, if_pos h, deltaSeq, sweepIter, h]
    · obtain ⟨j, hj1, hjle, hiters, hV, hP, hfd, hconv, hfirst, hexh⟩ :=
        ih (sweep c V P).1 (sweep c V P).2.1 (iter + 1)
          (hist ++ [(iter, (sweep c V P).2.2, histMax c (sweep c V P).1,
            histMin c (sweep c V P).1)])
      have hgo : viGo c eps (fuel + 1) V P iter hist
          = viGo c eps fuel (sweep c V P).1 (sweep c V P).2.1 (iter + 1)
              (hist ++ [(iter, (sweep c V P).2.2, histMax c (sweep c V P).1,
                histMin c (sweep c V P).1)]) := by
        simp [viGo, if_neg h]
      have hidx : (j + 1) - 1 = (j - 1) + 1 := by omega
      refine ⟨j + 1, by omega, by omega, ?_, ?_, ?_, ?_, ?_, ?_, ?_⟩
      · rw [hgo, hiters]
        omega
      · rw [hgo, hV, sweepIter_shift]
      · rw [hgo, hP, sweepIter_shift]
      · rw [hgo, hfd, hidx, deltaSeq_shift]
      · rw [hgo, hidx, deltaSeq_shift]
        exact hconv
      · intro k hk
        match k with
        | 0 => exact not_lt.mp h
        | k' + 1 =>
          rw [deltaSeq_shift]
          exact hfirst k' (by omega)
      · intro hc
        rw [hgo] at hc
        have := hexh hc
        omega

/-- Claim C3, amended to `max_iterations ≥ 1`: `value_iteration` returns a
convergence record; it stops at the first sweep whose `delta` drops below
`epsilon` with `converged = true`, and otherwise runs exactly `max_iterations`
sweeps and reports `converged = false` rather than failing.  For
`max_iterations = 0` the Python code raises `NameError`, so the record is only
guaranteed once at least one sweep runs. -/
theorem value_iteration_total_behavior (c : Config) (eps : ℝ) (n : ℕ)
    (V : ℕ → ℝ) (P : ℕ → ℕ) (hn : 1 ≤ n) :
    ∃ r V' P', value_iteration c eps n V P = some (r, V', P') ∧
      1 ≤ r.iterations ∧ r.iterations ≤ n ∧
      V' = (sweepIter c V P r.iterations).1 ∧
      P' = (sweepIter c V P r.iterations).2 ∧
      r.finalDelta = deltaSeq c V P (r.iterations - 1) ∧
      (r.converged = true ↔ r.finalDelta < eps) ∧
      (∀ k, k + 1 < r.iterations → eps ≤ deltaSeq c V P k) ∧
      (r.converged = false → r.iterations = n) := by
  obtain ⟨f, rfl⟩ : ∃ f, n = f + 1 := ⟨n - 1, by omega⟩
  obtain ⟨j, hj1, hjle, hiters, hV, hP, hfd, hconv, hfirst, hexh⟩ := viGo_spec c eps f V P 1 []
  have hiterj : (viGo c eps f V P 1 []).1.iterations = j := by omega
  refine ⟨(viGo c eps f V P 1 []).1, (viGo c eps f V P 1 []).2.1,
    (viGo c eps f V P 1 []).2.2, rfl, ?_, ?_, ?_, ?_, ?_, ?_, ?_, ?_⟩
  · omega
  · omega
  · rw [hiterj]
    exact hV
  · rw [hiterj]
    exact hP
  · rw [hiterj]
    exact hfd
  · rw [hfd]
    exact hconv
  · rw [hiterj]
    exact hfirst
  · intro hc
    rw [hiterj]
    exact hexh hc

/-- Witness for claim C3: the default configuration with `epsilon = 0.01`,
`max_iterations = 1` and the freshly initialized tables. -/
theorem value_iteration_total_behavior_witness :
    1 ≤ 1 ∧
      (∃ r V' P',
        value_iteration defaultConfig 0.01 1 initValue initPolicy = some (r, V', P') ∧
        1 ≤ r.iterations ∧ r.iterations ≤ 1 ∧
        V' = (sweepIter defaultConfig initValue initPolicy r.iterations).1 ∧
        P' = (sweepIter defaultConfig initValue initPolicy r.iterations).2 ∧
        r.finalDelta = deltaSeq defaultConfig initValue initPolicy (r.iterations - 1) ∧
        (r.converged = true ↔ r.finalDelta < 0.01) ∧
        (∀ k, k + 1 < r.iterations → 0.01 ≤ deltaSeq defaultConfig initValue initPolicy k) ∧
        (r.converged = false → r.iterations = 1)) :=
  ⟨le_refl 1,
    value_iteration_total_behavior defaultConfig 0.01 1 initValue initPolicy (le_refl 1)⟩

/-- Counterexample to claim C3 as stated: with `max_iterations = 0` the Python
loop body never runs and the trailing `return` reads the unbound local `delta`,
raising `NameError`; the embedded function accordingly yields `none`, not a
convergence record. -/
theorem value_iteration_zero_iterations_fails :
    value_iteration defaultConfig 0.01 0 initValue initPolicy = none := rfl

lemma bellman_snd_bound (c : Config) (V : ℕ → ℝ) (s : ℕ) :
    (bellman_update c V s).2 ≤ c.maxInventory - s := by
  have h := scanMax_snd_le (qValue c V s) (min (c.maxInventory - s) c.maxInventory)
  unfold bellman_update
  exact h.trans (min_le_left _ _)

lemma bellman_at_capacity (c : Config) (V : ℕ → ℝ) :
    (bellman_update c V c.maxInventory).2 = 0 := by
  unfold bellman_update
  rw [Nat.sub_self, Nat.zero_min]
  rfl

lemma sweepGo_policy_notin (c : Config) :
    ∀ (l : List ℕ) (V : ℕ → ℝ) (P : ℕ → ℕ) (δ : ℝ) (s : ℕ), s ∉ l →
      (sweepGo c V P δ l).2.1 s = P s := by
  intro l
  induction l with
  | nil => intro V P δ s _; rfl
  | cons a t ih =>
    intro V P δ s hs
    have hna : s ≠ a := fun h => hs (h ▸ List.mem_cons_self a t)
    have hnt : s ∉ t := fun h => hs (List.mem_cons_of_mem a h)
    show (sweepGo c _ (Function.update P a _) _ t).2.1 s = P s
    rw [ih _ _ _ s hnt, Function.update_noteq hna]

lemma sweepGo_policy_shape (c : Config) :
    ∀ (l : List ℕ), l.Nodup → ∀ (V : ℕ → ℝ) (P : ℕ → ℕ) (δ : ℝ) (s : ℕ), s ∈ l →
      ∃ W, (sweepGo c V P δ l).2.1 s = (bellman_update c W s).2 := by
  intro l
  induction l with
  | nil => intro _ V P δ s hs; simp at hs
  | cons a t ih =>
    intro hnd V P δ s hs
    rcases List.mem_cons.mp hs with rfl | hmem
    · have hna : s ∉ t := (List.nodup_cons.mp hnd).1
      refine ⟨V, ?_⟩
      show (sweepGo c _ (Function.update P s _) _ t).2.1 s = _
      rw [sweepGo_policy_notin c t _ _ _ s hna, Function.update_same]
    · exact ih (List.nodup_cons.mp hnd).2 _ _ _ s hmem

lemma sweep_policy_shape (c : Config) (V : ℕ → ℝ) (P : ℕ → ℕ) (s : ℕ)
    (hs : s ≤ c.maxInventory) :
    ∃ W, (sweep c V P).2.1 s = (bellman_update c W s).2 :=
  sweepGo_policy_shape c _ (List.nodup_range _) V P 0 s (List.mem_range.mpr (by omega))

/-- Claim C7: after any completed sweep, and after `value_iteration` returns,
every in-range state's stored action keeps post-order inventory within
capacity, and the policy at the full-capacity state is `0` (its scanned action
set is exactly `{0}`). -/
theorem policy_within_capacity (c : Config) (eps : ℝ) (n : ℕ)
    (V0 : ℕ → ℝ) (P0 : ℕ → ℕ) (Vs : ℕ → ℝ) (Ps : ℕ → ℕ)
    (r : VIRecord) (V' : ℕ → ℝ) (P' : ℕ → ℕ) (s : ℕ)
    (hs : s ≤ c.maxInventory)
    (hrun : value_iteration c eps n V0 P0 = some (r, V', P')) :
    s + (sweep c Vs Ps).2.1 s ≤ c.maxInventory ∧
    (sweep c Vs Ps).2.1 c.maxInventory = 0 ∧
    s + P' s ≤ c.maxInventory ∧
    P' c.maxInventory = 0 := by
  have hsweep : ∀ (W : ℕ → ℝ) (Q : ℕ → ℕ) (t : ℕ), t ≤ c.maxInventory →
      (sweep c W Q).2.1 t ≤ c.maxInventory - t := by
    intro W Q t ht
    obtain ⟨X, hX⟩ := sweep_policy_shape c W Q t ht
    rw [hX]
    exact bellman_snd_bound c X t
  have hsweep0 : ∀ (W : ℕ → ℝ) (Q : ℕ → ℕ), (sweep c W Q).2.1 c.maxInventory = 0 := by
    intro W Q
    obtain ⟨X, hX⟩ := sweep_policy_shape c W Q c.maxInventory (le_refl _)
    rw [hX]
    exact bellman_at_capacity c X
  have hP' : ∃ W Q, P' = (sweep c W Q).2.1 := by
    match n, hrun with
    | f + 1, hrun =>
      obtain ⟨j, hj1, _, _, _, hP, _, _, _, _⟩ := viGo_spec c eps f V0 P0 1 []
      have hinj : (r, V', P') = viGo c eps f V0 P0 1 [] := by
        have := hrun
        unfold value_iteration at this
        exact (Option.some_inj.mp this).symm
      have hP'' : P' = (sweepIter c V0 P0 j).2 := by
        rw [show P' = (viGo c eps f V0 P0 1 []).2.2 from congrArg (fun x => x.2.2) hinj]
        exact hP
      match j, hj1 with
      | m + 1, _ =>
        exact ⟨(sweepIter c V0 P0 m).1, (sweepIter c V0 P0 m).2, hP''⟩
  obtain ⟨W, Q, hWQ⟩ := hP'
  refine ⟨?_, hsweep0 Vs Ps, ?_, ?_⟩
  · have := hsweep Vs Ps s hs
    omega
  · rw [hWQ]
    have := hsweep W Q s hs
    omega
  · rw [hWQ]
    exact hsweep0 W Q

/-- First-call run of `value_iteration` on the default configuration, used as a
concrete witness input. -/
noncomputable def runD : VIRecord × (ℕ → ℝ) × (ℕ → ℕ) :=
  viGo defaultConfig 0.01 0 initValue initPolicy 1 []

/-- Witness for claim C7 at the default configuration, state 0, with a one-sweep
run of `value_iteration` from the freshly initialized tables. -/
theorem policy_within_capacity_witness :
    (0 ≤ defaultConfig.maxInventory ∧
      value_iteration defaultConfig 0.01 1 initValue initPolicy
        = some (runD.1, runD.2.1, runD.2.2)) ∧
    (0 + (sweep defaultConfig initValue initPolicy).2.1 0 ≤ defaultConfig.maxInventory ∧
      (sweep defaultConfig initValue initPolicy).2.1 defaultConfig.maxInventory = 0 ∧
      0 + runD.2.2 0 ≤ defaultConfig.maxInventory ∧
      runD.2.2 defaultConfig.maxInventory = 0) :=
  ⟨⟨Nat.zero_le _, rfl⟩,
    policy_within_capacity defaultConfig 0.01 1 initValue initPolicy initValue initPolicy
      runD.1 runD.2.1 runD.2.2 0 (Nat.zero_le _) rfl⟩

lemma sweepGo_delta_le (c : Config) :
    ∀ (l : List ℕ) (V : ℕ → ℝ) (P : ℕ → ℕ) (δ0 : ℝ), δ0 ≤ (sweepGo c V P δ0 l).2.2 := by
  intro l
  induction l with
  | nil => intro V P δ0; exact le_refl _
  | cons a t ih =>
    intro V P δ0
    exact (le_max_left δ0 |V a - (bellman_update c V a).1|).trans (ih _ _ _)

lemma sweepGo_fix (c : Config) :
    ∀ (l : List ℕ), l.Nodup → ∀ (V : ℕ → ℝ) (P : ℕ → ℕ),
      (sweepGo c V P 0 l).2.2 = 0 →
      (sweepGo c V P 0 l).1 = V ∧
      sweepGo c V (sweepGo c V P 0 l).2.1 0 l = (V, (sweepGo c V P 0 l).2.1, 0) := by
  intro l
  induction l with
  | nil => intro _ V P _; exact ⟨rfl, rfl⟩
  | cons a t ih =>
    intro hnd V P h
    have hle : max 0 |V a - (bellman_update c V a).1|
        ≤ (sweepGo c (Function.update V a (bellman_update c V a).1)
            (Function.update P a (bellman_update c V a).2)
            (max 0 |V a - (bellman_update c V a).1|) t).2.2 :=
      sweepGo_delta_le c t _ _ _
    have habs : |V a - (bellman_update c V a).1| = 0 := by
      have h0 : (sweepGo c (Function.update V a (bellman_update c V a).1)
          (Function.update P a (bellman_update c V a).2)
          (max 0 |V a - (bellman_update c V a).1|) t).2.2 = 0 := h
      have := (le_max_right 0 |V a - (bellman_update c V a).1|).trans (hle.trans h0.le)
      exact le_antisymm this (abs_nonneg _)
    have hnv : (bellman_update c V a).1 = V a := by
      have := sub_eq_zero.mp (abs_eq_zero.mp habs)
      linarith
    have hVupd : Function.update V a (bellman_update c V a).1 = V := by
      rw [hnv]
      exact Function.update_eq_self a V
    have hδ0 : max 0 |V a - (bellman_update c V a).1| = (0 : ℝ) := by
      rw [habs]
      simp
    have hpeel : sweepGo c V P 0 (a :: t)
        = sweepGo c V (Function.update P a (bellman_update c V a).2) 0 t := by
      show sweepGo c (Function.update V a (bellman_update c V a).1)
          (Function.update P a (bellman_update c V a).2)
          (max 0 |V a - (bellman_update c V a).1|) t = _
      rw [hVupd, hδ0]
    rw [hpeel] at h ⊢
    obtain ⟨ih1, ih2⟩ := ih (List.nodup_cons.mp hnd).2 V (Function.update P a (bellman_update c V a).2) h
    refine ⟨ih1, ?_⟩
    have hRa : (sweepGo c V (Function.update P a (bellman_update c V a).2) 0 t).2.1 a
        = (bellman_update c V a).2 := by
      rw [sweepGo_policy_notin c t _ _ _ a (List.nodup_cons.mp hnd).1, Function.update_same]
    have hupdR : Function.update
        (sweepGo c V (Function.update P a (bellman_update c V a).2) 0 t).2.1 a
        (bellman_update c V a).2
        = (sweepGo c V (Function.update P a (bellman_update c V a).2) 0 t).2.1 := by
      have h' := Function.update_eq_self a
        (sweepGo c V (Function.update P a (bellman_update c V a).2) 0 t).2.1
      rwa [hRa] at h'
    have hpeel2 : sweepGo c V
        (sweepGo c V (Function.update P a (bellman_update c V a).2) 0 t).2.1 0 (a :: t)
        = sweepGo c V
            (sweepGo c V (Function.update P a (bellman_update c V a).2) 0 t).2.1 0 t := by
      show sweepGo c (Function.update V a (bellman_update c V a).1)
          (Function.update
            (sweepGo c V (Function.update P a (bellman_update c V a).2) 0 t).2.1 a
            (bellman_update c V a).2)
          (max 0 |V a - (bellman_update c V a).1|) t = _
      rw [hVupd, hδ0, hupdR]
    rw [hpeel2, ih2]

lemma sweep_fix (c : Config) (V : ℕ → ℝ) (P : ℕ → ℕ) (h : (sweep c V P).2.2 = 0) :
    (sweep c V P).1 = V ∧ sweep c V (sweep c V P).2.1 = (V, (sweep c V P).2.1, 0) :=
  sweepGo_fix c (List.range (c.maxInventory + 1)) (List.nodup_range _) V P h

lemma viGo_stable (c : Config) (eps : ℝ) (V : ℕ → ℝ) (P : ℕ → ℕ)
    (hst : sweep c V P = (V, P, 0)) :
    ∀ (fuel iter : ℕ) (hist : List (ℕ × ℝ × ℝ × ℝ)),
      (viGo c eps fuel V P iter hist).2.1 = V ∧ (viGo c eps fuel V P iter hist).2.2 = P := by
  intro fuel
  induction fuel with
  | zero =>
    intro iter hist
    constructor
    · show (sweep c V P).1 = V
      rw [hst]
    · show (sweep c V P).2.1 = P
      rw [hst]
  | succ fuel ih =>
    intro iter hist
    by_cases h : (sweep c V P).2.2 < eps
    · have hb : viGo c eps (fuel + 1) V P iter hist
          = (⟨true, iter, (sweep c V P).2.2,
              hist ++ [(iter, (sweep c V P).2.2, histMax c (sweep c V P).1,
                histMin c (sweep c V P).1)]⟩,
            (sweep c V P).1, (sweep c V P).2.1) := by
        simp only [viGo]
        rw [if_pos h]
      rw [hb]
      constructor
      · show (sweep c V P).1 = V
        rw [hst]
      · show (sweep c V P).2.1 = P
        rw [hst]
    · have hrec : viGo c eps (fuel + 1) V P iter hist
          = viGo c eps fuel (sweep c V P).1 (sweep c V P).2.1 (iter + 1)
              (hist ++ [(iter, (sweep c V P).2.2, histMax c (sweep c V P).1,
                histMin c (sweep c V P).1)]) := by
        simp [viGo, if_neg h]
      rw [hrec, show (sweep c V P).1 = V from by rw [hst],
        show (sweep c V P).2.1 = P from by rw [hst]]
      exact ih _ _

/-- Claim C9, amended: `value_iteration` is deterministic, and a second call on
the same solver returns bit-identical value and policy tables whenever the
first call ended at an exact fixed point (`final_delta = 0`); in general the
second call resumes from the first call's output and moves the tables again,
so the unconditional claim fails. -/
theorem value_iteration_rerun_after_exact_fixpoint (c : Config) (eps : ℝ) (n : ℕ)
    (V0 : ℕ → ℝ) (P0 : ℕ → ℕ) (r1 : VIRecord) (V1 : ℕ → ℝ) (P1 : ℕ → ℕ)
    (hrun : value_iteration c eps n V0 P0 = some (r1, V1, P1))
    (hδ : r1.finalDelta = 0) :
    ∃ r2, value_iteration c eps n V1 P1 = some (r2, V1, P1) := by
  match n, hrun with
  | f + 1, hrun =>
    have hinj : (r1, V1, P1) = viGo c eps f V0 P0 1 [] := by
      unfold value_iteration at hrun
      exact (Option.some_inj.mp hrun).symm
    obtain ⟨j, hj1, hjle, hiters, hV, hP, hfd, hconv, hfirst, hexh⟩ := viGo_spec c eps f V0 P0 1 []
    rw [← hinj] at hV hP hfd
    have hV1 : V1 = (sweepIter c V0 P0 j).1 := hV
    have hP1 : P1 = (sweepIter c V0 P0 j).2 := hP
    have hfd1 : deltaSeq c V0 P0 (j - 1) = 0 := by
      rw [← hfd]
      exact hδ
    match j, hj1 with
    | m + 1, _ =>
      have hzero : (sweep c (sweepIter c V0 P0 m).1 (sweepIter c V0 P0 m).2).2.2 = 0 := hfd1
      obtain ⟨hfix1, hfix2⟩ := sweep_fix c (sweepIter c V0 P0 m).1 (sweepIter c V0 P0 m).2 hzero
      have hV1a : V1 = (sweepIter c V0 P0 m).1 := by
        rw [hV1]
        exact hfix1
      have hP1a : P1 = (sweep c (sweepIter c V0 P0 m).1 (sweepIter c V0 P0 m).2).2.1 := by
        rw [hP1]
        rfl
      have hstable : sweep c V1 P1 = (V1, P1, 0) := by
        rw [hV1a, hP1a]
        exact hfix2
      obtain ⟨h1, h2⟩ := viGo_stable c eps V1 P1 hstable f 1 []
      refine ⟨(viGo c eps f V1 P1 1 []).1, ?_⟩
      have hout : viGo c eps f V1 P1 1 [] = ((viGo c eps f V1 P1 1 []).1, V1, P1) :=
        Prod.ext rfl (Prod.ext h1 h2)
      show some (viGo c eps f V1 P1 1 []) = some ((viGo c eps f V1 P1 1 []).1, V1, P1)
      exact congrArg some hout

/-- Configuration whose truncated demand support is empty
(`int(-100 + 4·1) + 1 < 0`), so every expected value is an empty sum. -/
noncomputable def cfgEmptyD : Config :=
  { maxInventory := 2, orderCost := 50, holdingCost := 2, stockoutCost := 20,
    sellingPrice := 15, demandMean := -100, demandStd := 1, gamma := 0.95 }

lemma demandSupport_cfgEmptyD : demandSupport cfgEmptyD = 0 := by
  unfold demandSupport maxDemand truncInt cfgEmptyD
  rw [if_neg (by norm_num)]
  have h : ((-100 : ℝ) + 4 * 1) = ((-96 : ℤ) : ℝ) := by norm_num
  rw [h, Int.ceil_intCast]
  rfl

lemma qValue_cfgEmptyD (V : ℕ → ℝ) (s a : ℕ) : qValue cfgEmptyD V s a = 0 := by
  unfold qValue
  rw [demandSupport_cfgEmptyD]
  simp

lemma scanMax_zero_fun (f : ℕ → ℝ) (hf : ∀ m, f m = 0) : ∀ n, scanMax f n = (0, 0) := by
  intro n
  induction n with
  | zero => simp [scanMax, hf]
  | succ n ih =>
    rw [scanMax, ih]
    simp [hf]

lemma bellman_cfgEmptyD (V : ℕ → ℝ) (s : ℕ) : bellman_update cfgEmptyD V s = (0, 0) :=
  scanMax_zero_fun _ (fun m => qValue_cfgEmptyD V s m) _

lemma sweepGo_cfgEmptyD_delta :
    ∀ (l : List ℕ) (V : ℕ → ℝ) (P : ℕ → ℕ) (δ0 : ℝ), (∀ s, V s = 0) → 0 ≤ δ0 →
      (sweepGo cfgEmptyD V P δ0 l).2.2 = δ0 := by
  intro l
  induction l with
  | nil => intro V P δ0 _ _; rfl
  | cons a t ih =>
    intro V P δ0 hV hδ0
    show (sweepGo cfgEmptyD (Function.update V a (bellman_update cfgEmptyD V a).1)
        (Function.update P a (bellman_update cfgEmptyD V a).2)
        (max δ0 |V a - (bellman_update cfgEmptyD V a).1|) t).2.2 = δ0
    rw [bellman_cfgEmptyD]
    have habs : |V a - ((0 : ℝ × ℕ)).1| = 0 := by
      rw [hV a]
      norm_num
    have hmax : max δ0 |V a - ((0, 0) : ℝ × ℕ).1| = δ0 := by
      rw [show |V a - ((0, 0) : ℝ × ℕ).1| = 0 from by rw [hV a]; norm_num]
      exact max_eq_left hδ0
    rw [hmax]
    refine ih _ _ δ0 (fun s => ?_) hδ0
    rcases eq_or_ne s a with rfl | hne
    · rw [Function.update_same]
    · rw [Function.update_noteq hne]
      exact hV s

/-- One-iteration run of `value_iteration` on the empty-demand configuration. -/
noncomputable def runE : VIRecord × (ℕ → ℝ) × (ℕ → ℕ) :=
  viGo cfgEmptyD 1 0 initValue initPolicy 1 []

lemma runE_finalDelta : runE.1.finalDelta = 0 := by
  show (sweep cfgEmptyD initValue initPolicy).2.2 = 0
  exact sweepGo_cfgEmptyD_delta _ _ _ _ (fun _ => rfl) (le_refl 0)

/-- Witness for claim C9's amended statement: on the empty-demand configuration
the first call converges with `final_delta = 0` and the second call leaves both
tables unchanged. -/
theorem value_iteration_rerun_after_exact_fixpoint_witness :
    (value_iteration cfgEmptyD 1 1 initValue initPolicy
        = some (runE.1, runE.2.1, runE.2.2) ∧
      runE.1.finalDelta = 0) ∧
    ∃ r2, value_iteration cfgEmptyD 1 1 runE.2.1 runE.2.2 = some (r2, runE.2.1, runE.2.2) :=
  ⟨⟨rfl, runE_finalDelta⟩,
    value_iteration_rerun_after_exact_fixpoint cfgEmptyD 1 1 initValue initPolicy
      runE.1 runE.2.1 runE.2.2 rfl runE_finalDelta⟩

lemma viGo_step_lt (c : Config) (eps : ℝ) (fuel : ℕ) (V : ℕ → ℝ) (P : ℕ → ℕ) (iter : ℕ)
    (hist : List (ℕ × ℝ × ℝ × ℝ)) (h : (sweep c V P).2.2 < eps) :
    viGo c eps (fuel + 1) V P iter hist
      = (⟨true, iter, (sweep c V P).2.2, hist ++ [(iter, (sweep c V P).2.2,
          histMax c (sweep c V P).1, histMin c (sweep c V P).1)]⟩,
        (sweep c V P).1, (sweep c V P).2.1) := by
  simp only [viGo]
  rw [if_pos h]

/-- Capacity-zero configuration with only the stockout cost active, used to
exercise two successive solver runs. -/
noncomputable def cfgUnit : Config :=
  { maxInventory := 0, orderCost := 0, holdingCost := 0, stockoutCost := 20,
    sellingPrice := 0, demandMean := 0, demandStd := 1, gamma := 1 / 2 }

lemma demandSupport_cfgUnit : demandSupport cfgUnit = 5 := by
  unfold demandSupport maxDemand truncInt cfgUnit
  rw [if_pos (by norm_num)]
  have h : ((0 : ℝ) + 4 * 1) = ((4 : ℤ) : ℝ) := by norm_num
  rw [h, Int.floor_intCast]
  rfl

lemma clamp_cfgUnit (x : ℤ) : clamp cfgUnit x = 0 := by
  unfold clamp cfgUnit
  simp only [Nat.cast_zero]
  omega

lemma pU_pos (d : ℕ) : 0 < demand_probability cfgUnit d := by
  unfold demand_probability cfgUnit normPdf
  rw [if_neg (by omega)]
  positivity

lemma pU_le_half (d : ℕ) : demand_probability cfgUnit d ≤ 1 / 2 := by
  unfold demand_probability cfgUnit normPdf
  rw [if_neg (by omega)]
  have h1 : Real.exp (-((((d : ℤ) : ℝ)) - 0) ^ 2 / (2 * (1 : ℝ) ^ 2)) ≤ 1 := by
    rw [Real.exp_le_one_iff]
    apply div_nonpos_of_nonpos_of_nonneg
    · simp [sq_nonneg]
    · norm_num
  have h2 : (2 : ℝ) ≤ Real.sqrt (2 * Real.pi) :=
    (Real.le_sqrt (by norm_num) (by positivity)).mpr (by nlinarith [Real.pi_gt_three])
  rw [one_mul]
  exact div_le_div₀ zero_le_one h1 (by norm_num) h2

/-- Truncated demand mass of the capacity-zero configuration. -/
noncomputable def unitA : ℝ := ∑ d ∈ Finset.range 5, demand_probability cfgUnit d

/-- Truncated first demand moment of the capacity-zero configuration. -/
noncomputable def unitB : ℝ := ∑ d ∈ Finset.range 5, demand_probability cfgUnit d * d

lemma unitA_pos : 0 < unitA :=
  Finset.sum_pos (fun d _ => pU_pos d) ⟨0, Finset.mem_range.mpr (by norm_num)⟩

lemma unitA_le : unitA ≤ 5 / 2 := by
  unfold unitA
  calc ∑ d ∈ Finset.range 5, demand_probability cfgUnit d
      ≤ ∑ _d ∈ Finset.range 5, (1 / 2 : ℝ) := Finset.sum_le_sum fun d _ => pU_le_half d
    _ = 5 / 2 := by
        simp
        norm_num

lemma unitB_pos : 0 < unitB := by
  have h1 : demand_probability cfgUnit 1 * ((1 : ℕ) : ℝ)
      ≤ ∑ d ∈ Finset.range 5, demand_probability cfgUnit d * d :=
    Finset.single_le_sum (fun i _ => mul_nonneg (pU_pos i).le (Nat.cast_nonneg i))
      (Finset.mem_range.mpr (by norm_num))
  have h2 := pU_pos 1
  unfold unitB
  rw [Nat.cast_one, mul_one] at h1
  rw [Nat.cast_one] at h2
  linarith

lemma unitB_le : unitB ≤ 5 := by
  unfold unitB
  calc ∑ d ∈ Finset.range 5, demand_probability cfgUnit d * d
      ≤ ∑ d ∈ Finset.range 5, (1 / 2 : ℝ) * d :=
        Finset.sum_le_sum fun d _ => mul_le_mul_of_nonneg_right (pU_le_half d) (Nat.cast_nonneg d)
    _ = 5 := by norm_num [Finset.sum_range_succ]

lemma reward_cfgUnit (d : ℕ) :
    immediate_reward cfgUnit ((0 : ℕ) : ℤ) ((0 : ℕ) : ℤ) ((d : ℕ) : ℤ) = -(20 * (d : ℝ)) := by
  unfold immediate_reward cfgUnit
  simp only [Nat.cast_zero]
  rw [if_neg (lt_irrefl (0 : ℤ))]
  have hmax : max (0 : ℤ) ((d : ℤ) - 0) = (d : ℤ) := by omega
  rw [hmax]
  push_cast
  ring

lemma qValue_cfgUnit (V : ℕ → ℝ) :
    qValue cfgUnit V 0 0 = -(20 * unitB) + (1 / 2) * unitA * V 0 := by
  unfold qValue
  rw [demandSupport_cfgUnit]
  have hγ : cfgUnit.gamma = 1 / 2 := rfl
  have hterm : ∀ d ∈ Finset.range 5,
      demand_probability cfgUnit d *
        (immediate_reward cfgUnit ((0 : ℕ) : ℤ) ((0 : ℕ) : ℤ) d
          + cfgUnit.gamma * V (clamp cfgUnit (((0 : ℕ) : ℤ) + ((0 : ℕ) : ℤ) - d)))
      = -(20 * (demand_probability cfgUnit d * d))
          + (1 / 2) * demand_probability cfgUnit d * V 0 := by
    intro d _
    rw [clamp_cfgUnit, reward_cfgUnit, hγ]
    ring
  rw [Finset.sum_congr rfl hterm, Finset.sum_add_distrib]
  unfold unitA unitB
  rw [Finset.sum_neg_distrib, ← Finset.mul_sum, ← Finset.sum_mul, ← Finset.mul_sum]

lemma sweep_cfgUnit (V : ℕ → ℝ) (P : ℕ → ℕ) :
    sweep cfgUnit V P = (Function.update V 0 (qValue cfgUnit V 0 0), Function.update P 0 0,
      max 0 |V 0 - qValue cfgUnit V 0 0|) := rfl

lemma q1_eq : qValue cfgUnit initValue 0 0 = -(20 * unitB) := by
  rw [qValue_cfgUnit]
  show -(20 * unitB) + 1 / 2 * unitA * 0 = -(20 * unitB)
  ring

lemma delta1_lt : (sweep cfgUnit initValue initPolicy).2.2 < 1000 := by
  rw [sweep_cfgUnit]
  show max 0 |initValue 0 - qValue cfgUnit initValue 0 0| < 1000
  rw [q1_eq]
  show max 0 |0 - -(20 * unitB)| < 1000
  rw [zero_sub, abs_neg, abs_neg, abs_of_nonneg (by nlinarith [unitB_pos])]
  have h1 : (20 : ℝ) * unitB ≤ 100 := by nlinarith [unitB_le]
  have h2 : (0 : ℝ) ≤ 20 * unitB := by nlinarith [unitB_pos]
  rw [max_eq_right h2]
  linarith

/-- Tables after the first `solve` call on the capacity-zero configuration. -/
noncomputable def runU1 : VIRecord × (ℕ → ℝ) × (ℕ → ℕ) :=
  viGo cfgUnit 1000 999 initValue initPolicy 1 []

lemma runU1_V : runU1.2.1 0 = -(20 * unitB) := by
  show (viGo cfgUnit 1000 (998 + 1) initValue initPolicy 1 []).2.1 0 = _
  rw [viGo_step_lt cfgUnit 1000 998 initValue initPolicy 1 [] delta1_lt]
  show (sweep cfgUnit initValue initPolicy).1 0 = _
  rw [sweep_cfgUnit]
  show Function.update initValue 0 (qValue cfgUnit initValue 0 0) 0 = _
  rw [Function.update_same, q1_eq]

lemma q2_eq : qValue cfgUnit runU1.2.1 0 0
    = -(20 * unitB) + (1 / 2) * unitA * (-(20 * unitB)) := by
  rw [qValue_cfgUnit, runU1_V]

lemma delta2_lt : (sweep cfgUnit runU1.2.1 runU1.2.2).2.2 < 1000 := by
  rw [sweep_cfgUnit]
  show max 0 |runU1.2.1 0 - qValue cfgUnit runU1.2.1 0 0| < 1000
  rw [q2_eq, runU1_V]
  have hc : -(20 * unitB) - (-(20 * unitB) + (1 / 2) * unitA * (-(20 * unitB)))
      = 10 * unitA * unitB := by ring
  rw [hc]
  have h0 : (0 : ℝ) ≤ 10 * unitA * unitB := by nlinarith [unitA_pos, unitB_pos]
  rw [abs_of_nonneg h0, max_eq_right h0]
  nlinarith [unitA_le, unitB_le, unitA_pos, unitB_pos]

/-- Tables after the second `solve` call on the capacity-zero configuration. -/
noncomputable def runU2 : VIRecord × (ℕ → ℝ) × (ℕ → ℕ) :=
  viGo cfgUnit 1000 999 runU1.2.1 runU1.2.2 1 []

lemma runU2_V : runU2.2.1 0 = -(20 * unitB) + (1 / 2) * unitA * (-(20 * unitB)) := by
  show (viGo cfgUnit 1000 (998 + 1) runU1.2.1 runU1.2.2 1 []).2.1 0 = _
  rw [viGo_step_lt cfgUnit 1000 998 runU1.2.1 runU1.2.2 1 [] delta2_lt]
  show (sweep cfgUnit runU1.2.1 runU1.2.2).1 0 = _
  rw [sweep_cfgUnit]
  show Function.update runU1.2.1 0 (qValue cfgUnit runU1.2.1 0 0) 0 = _
  rw [Function.update_same, q2_eq]

/-- Counterexample to claim C9 as stated: on the capacity-zero configuration,
calling `value_iteration(epsilon = 1000, max_iterations = 1000)` twice in
succession on the same solver changes the stored value at state 0, because the
second call resumes from the first call's (inexact) converged table. -/
theorem solve_twice_not_bit_identical :
    value_iteration cfgUnit 1000 1000 initValue initPolicy
        = some (runU1.1, runU1.2.1, runU1.2.2) ∧
    value_iteration cfgUnit 1000 1000 runU1.2.1 runU1.2.2
        = some (runU2.1, runU2.2.1, runU2.2.2) ∧
    runU2.2.1 0 ≠ runU1.2.1 0 := by
  refine ⟨rfl, rfl, ?_⟩
  rw [runU1_V, runU2_V]
  intro h
  nlinarith [unitA_pos, unitB_pos]

/-- Claim C10: on a freshly constructed solver the policy table is all zeros, so
the summarizer returns the degenerate thirds-of-capacity fallback without failing. -/
theorem compute_s_S_on_fresh_solver (c : Config) :
    compute_s_S_policy c initPolicy = (c.maxInventory / 3, 2 * c.maxInventory / 3) := by
  unfold compute_s_S_policy initPolicy
  simp

end MDPInv
